import Mathlib

/-!
Verification of the image-processing core of the coloring-book repository.

Two pipelines are embedded shallowly, directly from the TypeScript source:

* `src/utils/palette.ts` — dominant-color extraction (`getDominantHexes`,
  `samplePixels`, `kmeansPP`, `similarHex`, `hexToRgb`, `rgbToHex`) and the
  ΔE2000 colour distance (`deltaE`) plus `hexToLab`;
* `src/utils/edgeMap.ts` — edge extraction (`toGrayscale`, `bilateral3`,
  `sobel`, `nonMaxSuppression`, `percentileThresholds`, `hysteresis`,
  `medianSeal`, `toEdgePng`);
* `src/services/color.ts` — the ΔE76 palette matcher (`matchToFaberCastell`,
  `deltaE76`, `getFCPalette`) and `src/utils/colorMatch.ts` (`nearestFC`).

Modelling conventions:
* JavaScript numbers are modelled by `ℚ` where the source only performs
  field operations and comparisons (the whole k-means pipeline), and by `ℝ`
  where transcendental functions appear (`Math.exp`, `Math.hypot`,
  `Math.atan2`, `Math.cbrt`, `Math.pow`, `Math.sqrt`).  IEEE-754 rounding is
  not modelled; the claims under scrutiny are structural, not about ulps.
* Hex colour strings are represented by their byte triples.  `rgbToHex`
  produces the triple that the source's hex string denotes, and `hexToRgb`
  reads it back; this round-trip is exact in the source (six-digit upper-case
  hex), so the representation is faithful.
* `Math.random()` is an ambient impure source in JS.  The embedding passes
  an explicit stream `rnd : ℕ → ℚ` of its successive return values
  (each in `[0,1)`); functions that never call `Math.random` simply ignore it.
* Typed arrays are modelled as `List`s indexed with `List.getD` (reads of the
  numeric arrays in the source are always in bounds at the call sites).
* `Array.prototype.sort` (ES2019+) is a stable sort; a stable sort by a key
  is the lexicographic sort by (key, original position), and it is embedded
  as `List.mergeSort` on the `enum`erated list with that lexicographic order.
-/

namespace ColoringBook

/-- One RGBA sample of the decoded pixel buffer (bytes). -/
structure RGBA where
  r : ℕ
  g : ℕ
  b : ℕ
  a : ℕ
deriving DecidableEq

/-- `type RGB = { r: number; g: number; b: number }` from palette.ts. -/
structure RGB where
  r : ℚ
  g : ℚ
  b : ℚ
deriving DecidableEq

/-- `type Center = RGB & { weight: number }` from palette.ts (the weight is
always an assignment count, hence `ℕ`). -/
structure Center where
  r : ℚ
  g : ℚ
  b : ℚ
  weight : ℕ
deriving DecidableEq

def centerRGB (c : Center) : RGB := ⟨c.r, c.g, c.b⟩

/-- JS `Math.round` (round half toward +∞): `⌊x + 1/2⌋`. -/
def jsRound (q : ℚ) : ℤ := ⌊q + 1/2⌋

/-- JS `x | 0` (truncation toward zero) for a rational. -/
def jsTruncQ (q : ℚ) : ℤ := if q < 0 then -⌊-q⌋ else ⌊q⌋

/-- `clamp` from palette.ts line 7 (defaults `lo = 0`, `hi = 255`). -/
def clampByte (n : ℤ) : ℕ := (max 0 (min 255 n)).toNat

/-- A hex colour string, represented by the byte triple it denotes. -/
abbrev HexT := ℕ × ℕ × ℕ

/-- `rgbToHex` from palette.ts: clamp and round each channel.  (Producing the
byte triple the hex string denotes.) -/
def rgbToHex (c : Center) : HexT :=
  (clampByte (jsRound c.r), clampByte (jsRound c.g), clampByte (jsRound c.b))

/-- `hexToRgb` from palette.ts, on the triple representation. -/
def hexToRgb (h : HexT) : RGB := ⟨(h.1 : ℚ), (h.2.1 : ℚ), (h.2.2 : ℚ)⟩

/-- `similarHex` from palette.ts lines 124–128.  NOTE the direction: it
returns `true` when the two colours are far apart (squared distance greater
than `tol²`). -/
def similarHex (a b : HexT) (tol : ℚ) : Bool :=
  let pa := hexToRgb a
  let pb := hexToRgb b
  let dr := pa.r - pb.r
  let dg := pa.g - pb.g
  let db := pa.b - pb.b
  decide (dr * dr + dg * dg + db * db > tol * tol)

/-- `samplePixels` from palette.ts lines 58–69 with `step = 1`: the y/x loops
visit every pixel once in row-major order, which is exactly the order of the
sample list; pixels with alpha < 8 are skipped. -/
def samplePixels (pixels : List RGBA) : List RGB :=
  pixels.filterMap fun p => if p.a < 8 then none else some ⟨(p.r : ℚ), (p.g : ℚ), (p.b : ℚ)⟩

/-- The noise filter of `getDominantHexes` (palette.ts lines 16–21). -/
def keepPixel (p : RGB) : Bool :=
  let mx := max p.r (max p.g p.b)
  let mn := min p.r (min p.g p.b)
  let sat := mx - mn
  (!(decide (mx > 245) && decide (mn > 245))) &&
    (!(decide (mx < 10) && decide (mn < 10))) &&
    (decide (sat > 8) || (decide (mx > 30) && decide (mx < 230)))

/-- `dist2` from `kmeansPP` (palette.ts lines 81–84). -/
def dist2 (p c : RGB) : ℚ :=
  let dr := p.r - c.r
  let dg := p.g - c.g
  let db := p.b - c.b
  dr * dr + dg * dg + db * db

/-- `Math.min(...centers.map(c => dist2(p, c)))`.  The centers list is never
empty at the call site (one center is pushed before the loop); the `[]` case
(JS `Infinity`) is modelled as 0 and never reached. -/
def minD2 (p : RGB) (cs : List Center) : ℚ :=
  match cs.map (fun c => dist2 p (centerRGB c)) with
  | [] => 0
  | d :: ds => ds.foldl min d

/-- The inner seeding scan of `kmeansPP` (lines 90–96): subtract the distances
from `r` in order and report the first index where the running value drops to
`≤ 0`; `none` when the scan falls off the end (JS: no `push` happens). -/
def pickIdx : List ℚ → ℚ → Option ℕ
  | [], _ => none
  | d :: ds, r => if r - d ≤ 0 then some 0 else (pickIdx ds (r - d)).map (· + 1)

def mkCenter (p : RGB) : Center := ⟨p.r, p.g, p.b, 1⟩

/-- One iteration of the k-means++ seeding `while` loop (lines 86–97), given
the `Math.random()` value `r01` drawn for this iteration. -/
def seedStep (points : List RGB) (cs : List Center) (r01 : ℚ) : List Center :=
  let dists := points.map (fun p => minD2 p cs)
  let sum0 := dists.sum
  let sum := if sum0 = 0 then 1 else sum0
  match pickIdx dists (r01 * sum) with
  | some i => cs ++ [mkCenter (points.getD i ⟨0, 0, 0⟩)]
  | none => cs

/-- The `while (centers.length < k)` seeding loop.  `fuel` bounds the number
of iterations: the JS loop can fail to push a center (all distances zero and a
nonzero random draw) and then never terminates; on every execution on which
the JS loop terminates within `fuel` iterations — in particular whenever each
iteration pushes a center, so `fuel = k` suffices — the model agrees with the
source.  `ctr` indexes the `Math.random()` stream. -/
def seedLoop (points : List RGB) (k : ℕ) (rnd : ℕ → ℚ) :
    ℕ → ℕ → List Center → List Center
  | 0, _, cs => cs
  | fuel + 1, ctr, cs =>
    if cs.length < k then
      seedLoop points k rnd fuel (ctr + 1) (seedStep points cs (rnd ctr))
    else cs

/-- Per-cluster accumulator of a Lloyd iteration (`sums` in lines 101–110). -/
structure SumW where
  r : ℚ
  g : ℚ
  b : ℚ
  w : ℕ
deriving DecidableEq

/-- The argmin scan of lines 103–107: `bd` starts at `Infinity` (modelled as
`none`), strict `<` so the first index achieving the minimum wins. -/
def assignIdx (p : RGB) (cs : List Center) : ℕ :=
  (cs.enum.foldl
    (fun st ic =>
      let d := dist2 p (centerRGB ic.2)
      match st.2 with
      | none => (ic.1, some d)
      | some bd => if d < bd then (ic.1, some d) else st)
    ((0 : ℕ), (none : Option ℚ))).1

/-- One Lloyd iteration (lines 100–120): accumulate assigned samples, then
recompute each center as the mean of its samples when it received any. -/
def lloydOnce (points : List RGB) (cs : List Center) : List Center :=
  let sums := points.foldl
    (fun sums p =>
      let bi := assignIdx p cs
      let s := sums.getD bi ⟨0, 0, 0, 0⟩
      sums.set bi ⟨s.r + p.r, s.g + p.g, s.b + p.b, s.w + 1⟩)
    (List.replicate cs.length (⟨0, 0, 0, 0⟩ : SumW))
  cs.enum.map fun ic =>
    let s := sums.getD ic.1 ⟨0, 0, 0, 0⟩
    if 0 < s.w then ⟨s.r / s.w, s.g / s.w, s.b / s.w, s.w⟩ else ic.2

def lloyd (points : List RGB) : ℕ → List Center → List Center
  | 0, cs => cs
  | n + 1, cs => lloyd points n (lloydOnce points cs)

/-- `kmeansPP` from palette.ts lines 75–122.  `rnd` is the stream of
`Math.random()` values: `rnd 0` picks the first center, `rnd (ctr)` is drawn
by iteration `ctr` of the seeding loop.  The source runs exactly 8 Lloyd
iterations. -/
def kmeansPP (points : List RGB) (k : ℕ) (rnd : ℕ → ℚ) : List Center :=
  if points = [] then []
  else
    let i0 := (jsTruncQ (rnd 0 * (points.length : ℚ))).toNat
    let init := [mkCenter (points.getD i0 ⟨0, 0, 0⟩)]
    lloyd points 8 (seedLoop points k rnd k 1 init)

/-- `centers.sort((a, b) => b.weight - a.weight)` — ES stable sort descending
by weight, i.e. the lexicographic sort by (weight descending, original
position). -/
def sortCentersByWeight (cs : List Center) : List Center :=
  (cs.enum.mergeSort fun a b =>
    decide (b.2.weight < a.2.weight ∨ (a.2.weight = b.2.weight ∧ a.1 ≤ b.1))).map
    fun p => p.2

/-- The de-duplication step of `getDominantHexes` (line 28):
`arr.filter((hex, idx, arr) => idx === arr.findIndex(h => similarHex(hex, h, 8)))`.
JS `findIndex` returns -1 when nothing matches while `List.findIdx` returns
the length; neither can equal the index of an element, so the two agree. -/
def dedupJS (arr : List HexT) : List HexT :=
  (arr.enum.filter fun p => arr.findIdx (fun h => similarHex p.2 h 8) == p.1).map
    fun p => p.2

/-- `getDominantHexes` from palette.ts lines 11–32, from the decoded
(already ≤480px-wide) pixel buffer to the hex list.  Image decoding and
downscaling (`readImagePixels`) are the caller-supplied external collaborator.
-/
def getDominantHexes (pixels : List RGBA) (k : ℕ) (rnd : ℕ → ℚ) : List HexT :=
  let samples := samplePixels pixels
  let filtered := samples.filter keepPixel
  let centers := kmeansPP filtered (min k (max 3 (filtered.length / 200))) rnd
  let result := dedupJS ((sortCentersByWeight centers).map rgbToHex)
  result.take (max 3 k)

/-! ### Helper lemmas about the de-duplication filter -/

theorem similarHex_self (a : HexT) : similarHex a a 8 = false := by
  simp [similarHex, hexToRgb]

/-- The de-duplication filter keeps the entry at `idx` only when
`findIndex` of the first *dissimilar* entry equals `idx`; but an entry is
never dissimilar from itself, so `findIndex` can never return the entry's own
index, and the filter drops every element. -/
theorem dedupJS_eq_nil (arr : List HexT) : dedupJS arr = [] := by
  unfold dedupJS
  rw [List.map_eq_nil_iff, List.filter_eq_nil_iff]
  rintro ⟨i, x⟩ hmem
  obtain ⟨hilt, hx⟩ := List.mem_enum hmem
  simp only [beq_iff_eq]
  intro hfind
  have hlt : arr.findIdx (fun h => similarHex x h 8) < arr.length := hfind ▸ hilt
  have := List.findIdx_getElem (w := hlt)
  simp only [hfind, ← hx] at this
  simp [similarHex_self] at this

/-! ### edgeMap.ts: grid machinery (the integer-valued part, computable)

Rasters are row-major lists of length `w * h`; pixel `(y, x)` lives at index
`y * w + x`.  The edge-state values are `0` = background, `1` = weak,
`2` = strong, as in the source's `Uint8Array`. -/

/-- The eight neighbour indices of pixel `(y, x)`, in the source's scan order
(`yy = -1..1` outer, `xx = -1..1` inner, centre skipped).  Used only with
`y, x ≥ 1`, where the `ℕ` subtractions are exact. -/
def nbrs8 (w y x : ℕ) : List ℕ :=
  [(y - 1) * w + (x - 1), (y - 1) * w + x, (y - 1) * w + (x + 1),
   y * w + (x - 1), y * w + (x + 1),
   (y + 1) * w + (x - 1), (y + 1) * w + x, (y + 1) * w + (x + 1)]

/-- The full 3×3 neighbourhood (centre included) counted by `medianSeal`. -/
def nbrs9 (w y x : ℕ) : List ℕ :=
  [(y - 1) * w + (x - 1), (y - 1) * w + x, (y - 1) * w + (x + 1),
   y * w + (x - 1), y * w + x, y * w + (x + 1),
   (y + 1) * w + (x - 1), (y + 1) * w + x, (y + 1) * w + (x + 1)]

/-- The interior scan order of the nested loops
`for (y = 1; y < h-1; y++) for (x = 1; x < w-1; x++)`. -/
def interiorCoords (w h : ℕ) : List (ℕ × ℕ) :=
  (List.range (h - 2)).flatMap fun y => (List.range (w - 2)).map fun x => (y + 1, x + 1)

/-- One visit of the hysteresis promotion scan (edgeMap.ts lines 99–110):
a weak pixel with a strong 8-neighbour is promoted to strong and the
`changed` flag is raised.  The scan is in place, so later visits of the same
pass see earlier promotions, exactly as in the source. -/
def promoteStep (w : ℕ) (st : List ℕ × Bool) (yx : ℕ × ℕ) : List ℕ × Bool :=
  let i := yx.1 * w + yx.2
  if st.1.getD i 0 = 1 ∧ (nbrs8 w yx.1 yx.2).any (fun j => st.1.getD j 0 == 2) then
    (st.1.set i 2, true)
  else st

/-- One full pass of the `while (changed)` loop body. -/
def hystPass (w h : ℕ) (a : List ℕ) : List ℕ × Bool :=
  (interiorCoords w h).foldl (promoteStep w) (a, false)

/-- The `while (changed)` fixed-point iteration, with fuel.  Every pass that
reports a change strictly increases the number of strong pixels, so the JS
loop exits after at most `a.length + 1` passes; with that much fuel the model
agrees with the source (see `hystPass_hystLoop_full_fuel`). -/
def hystLoop (w h : ℕ) : ℕ → List ℕ → List ℕ
  | 0, a => a
  | fuel + 1, a =>
    let p := hystPass w h a
    if p.2 then hystLoop w h fuel p.1 else p.1

/-- `medianSeal` from edgeMap.ts lines 116–129.  `out` starts as a copy of
`strong` and each interior position is written exactly once, from counts over
the *input* array only, so the double loop is a single map over positions
(the raster length is `w * h` at the call site, making `i ↦ (i / w, i % w)`
the inverse of `(y, x) ↦ y * w + x` on the scanned range). -/
def medianSeal (strong : List ℕ) (w h : ℕ) : List ℕ :=
  (List.range strong.length).map fun i =>
    let y := i / w
    let x := i % w
    if 1 ≤ y ∧ y < h - 1 ∧ 1 ≤ x ∧ x < w - 1 then
      let cnt := (nbrs9 w y x).countP fun j => strong.getD j 0 == 2
      if 5 ≤ cnt then 2 else strong.getD i 0
    else strong.getD i 0

/-- The final paint loop of `toEdgePng` (lines 164–167), per pixel:
strong ↦ black (0), everything else ↦ white (255). -/
def renderPixel (v : ℕ) : ℕ := if v = 2 then 0 else 255

/-! ### edgeMap.ts: the real-valued stages -/

/-- Clamp an integer index into `[0, hi]` (the border clamping of
`bilateral3`). -/
def clampIdx (v hi : ℤ) : ℕ := (max 0 (min hi v)).toNat

noncomputable section

/-- JS `x | 0` (truncation toward zero) for a real. -/
def jsTruncR (x : ℝ) : ℤ := if x < 0 then -⌊-x⌋ else ⌊x⌋

/-- `Math.hypot`. -/
def hypotR (x y : ℝ) : ℝ := Real.sqrt (x ^ 2 + y ^ 2)

/-- `Math.atan2` (on non-NaN inputs; signed zeros are not modelled, and
`atan2 0 0 = 0` as in JS). -/
def atan2R (y x : ℝ) : ℝ :=
  if 0 < x then Real.arctan (y / x)
  else if x < 0 ∧ 0 ≤ y then Real.arctan (y / x) + Real.pi
  else if x < 0 ∧ y < 0 then Real.arctan (y / x) - Real.pi
  else if x = 0 ∧ 0 < y then Real.pi / 2
  else if x = 0 ∧ y < 0 then -(Real.pi / 2)
  else 0

/-- `toGrayscale` (lines 7–14): BT.709 luminance, truncated with `| 0`; the
store into a `Uint8ClampedArray` clamps to a byte (a no-op for in-range
luminances, kept for faithfulness). -/
def toGrayscale (img : List RGBA) : List ℝ :=
  img.map fun p =>
    ((clampByte (jsTruncR (0.2126 * (p.r : ℝ) + 0.7152 * (p.g : ℝ) + 0.0722 * (p.b : ℝ))) : ℕ) : ℝ)

/-- The 3×3 offsets in the source's loop order (`yy` outer, `xx` inner). -/
def offsets9 : List (ℤ × ℤ) :=
  [(-1, -1), (-1, 0), (-1, 1), (0, -1), (0, 0), (0, 1), (1, -1), (1, 0), (1, 1)]

/-- `bilateral3` (lines 17–40): range-weighted 3×3 average with neighbour
coordinates clamped to the buffer, written back through `| 0` and a clamped
byte store. -/
def bilateral3 (gray : List ℝ) (w h : ℕ) (sigmaR : ℝ) : List ℝ :=
  (List.range (w * h)).map fun i =>
    let y := i / w
    let x := i % w
    let c := gray.getD i 0
    let js := offsets9.map fun d =>
      clampIdx ((y : ℤ) + d.1) ((h : ℤ) - 1) * w + clampIdx ((x : ℤ) + d.2) ((w : ℤ) - 1)
    let ws := (js.map fun j => Real.exp (-((gray.getD j 0 - c) ^ 2) / (2 * sigmaR ^ 2))).sum
    let acc := (js.map fun j =>
      Real.exp (-((gray.getD j 0 - c) ^ 2) / (2 * sigmaR ^ 2)) * gray.getD j 0).sum
    ((clampByte (jsTruncR (acc / (if ws = 0 then 1 else ws))) : ℕ) : ℝ)

/-- One Sobel kernel entry: offset `(dy, dx)` with its `gxK`/`gyK` weights. -/
structure KE where
  dy : ℤ
  dx : ℤ
  gxw : ℝ
  gyw : ℝ

/-- The two standard Sobel 3×3 kernels of lines 43–44, fused entrywise. -/
def sobelK : List KE :=
  [⟨-1, -1, -1, -1⟩, ⟨-1, 0, 0, -2⟩, ⟨-1, 1, 1, -1⟩,
   ⟨0, -1, -2, 0⟩, ⟨0, 0, 0, 0⟩, ⟨0, 1, 2, 0⟩,
   ⟨1, -1, -1, 1⟩, ⟨1, 0, 0, 2⟩, ⟨1, 1, 1, 1⟩]

def gxAt (src : List ℝ) (w y x : ℕ) : ℝ :=
  (sobelK.map fun e => e.gxw * src.getD ((((y : ℤ) + e.dy) * w + ((x : ℤ) + e.dx)).toNat) 0).sum

def gyAt (src : List ℝ) (w y x : ℕ) : ℝ :=
  (sobelK.map fun e => e.gyw * src.getD ((((y : ℤ) + e.dy) * w + ((x : ℤ) + e.dx)).toNat) 0).sum

/-- `sobel` (lines 42–63): gradient magnitude (`Math.hypot`) and angle
(`Math.atan2`) on the interior; the 1-pixel border ring stays zero. -/
def sobel (src : List ℝ) (w h : ℕ) : List ℝ × List ℝ :=
  ((List.range (w * h)).map fun i =>
    let y := i / w
    let x := i % w
    if 1 ≤ y ∧ y < h - 1 ∧ 1 ≤ x ∧ x < w - 1 then hypotR (gxAt src w y x) (gyAt src w y x)
    else 0,
   (List.range (w * h)).map fun i =>
    let y := i / w
    let x := i % w
    if 1 ≤ y ∧ y < h - 1 ∧ 1 ≤ x ∧ x < w - 1 then atan2R (gyAt src w y x) (gxAt src w y x)
    else 0)

/-- `nonMaxSuppression` (lines 65–80): 4-bin angle quantisation, keep the
magnitude only if it is ≥ both neighbours along the quantised direction. -/
def nonMaxSuppression (mag ang : List ℝ) (w h : ℕ) : List ℝ :=
  (List.range (w * h)).map fun i =>
    let y := i / w
    let x := i % w
    if 1 ≤ y ∧ y < h - 1 ∧ 1 ≤ x ∧ x < w - 1 then
      let theta := |ang.getD i 0 * 180 / Real.pi|
      let qr :=
        if theta ≤ 22.5 ∨ theta > 157.5 then (mag.getD (i + 1) 0, mag.getD (i - 1) 0)
        else if theta ≤ 67.5 then (mag.getD (i + w + 1) 0, mag.getD (i - w - 1) 0)
        else if theta ≤ 112.5 then (mag.getD (i + w) 0, mag.getD (i - w) 0)
        else (mag.getD (i - w + 1) 0, mag.getD (i + w - 1) 0)
      if qr.1 ≤ mag.getD i 0 ∧ qr.2 ≤ mag.getD i 0 then mag.getD i 0 else 0
    else 0

/-- `percentileThresholds` (lines 82–88): sort the positive NMS magnitudes
ascending and index at `Math.floor(length * pct)`; `{high: 0, low: 0}` when
nothing is positive. -/
def percentileThresholds (nms : List ℝ) (hiPct loPct : ℝ) : ℝ × ℝ :=
  let vals := (nms.filter fun v => decide (0 < v)).mergeSort fun a b => decide (a ≤ b)
  if vals = [] then (0, 0)
  else (vals.getD (⌊(vals.length : ℝ) * hiPct⌋).toNat 0,
        vals.getD (⌊(vals.length : ℝ) * loPct⌋).toNat 0)

/-- The initial classification of `hysteresis` (lines 91–95): strong when
`≥ high`, else weak when `≥ low`, else background — over the whole buffer,
border included. -/
def classify (nms : List ℝ) (high low : ℝ) : List ℕ :=
  nms.map fun v => if high ≤ v then 2 else if low ≤ v then 1 else 0

/-- `hysteresis` (lines 90–113): classification followed by the promotion
loop run to its fixed point. -/
def hysteresis (nms : List ℝ) (w h : ℕ) (high low : ℝ) : List ℕ :=
  hystLoop w h (nms.length + 1) (classify nms high low)

/-- `toEdgePng` (lines 131–178), from the decoded 2× work-canvas RGBA buffer
(`w × h`) to the painted edge raster (one byte per pixel; the source writes
the same value to r, g and b with alpha 255).  Canvas image decoding and the
final anti-aliased downscale are the caller's external collaborators
(spec §6).  `rnd` is the ambient `Math.random` stream; the edge pipeline
never consults it. -/
def toEdgePng (rnd : ℕ → ℚ) (img : List RGBA) (w h : ℕ) (ui : ℝ) : List ℕ :=
  let gray := toGrayscale img
  let den := bilateral3 gray w h 18
  let mag := (sobel den w h).1
  let ang := (sobel den w h).2
  let nms := nonMaxSuppression mag ang w h
  let hiPct := max 0.82 (min 0.92 (0.82 + (ui - 30) * 0.005))
  let loPct := hiPct * 0.55
  let tl := percentileThresholds nms hiPct loPct
  let edges := medianSeal (hysteresis nms w h tl.1 tl.2) w h
  edges.map renderPixel

/-! ### ColorScience: sRGB→Lab and the two perceptual distances

`src/services/color.ts` (ΔE76 side) and `src/utils/colorMatch.ts` (ΔE2000
side) implement character-for-character the same sRGB→Lab conversion (same
matrix constants, same D65 white point, same piecewise `f`), only factored
slightly differently (`/255` before vs. inside the linearisation); the chain
is embedded once. -/

/-- `{L, a, b}` (equivalently the `[L, a, b]` triples of color.ts). -/
structure Lab where
  L : ℝ
  a : ℝ
  b : ℝ

/-- `Math.cbrt` (real cube root, odd extension for negatives). -/
def cbrtR (x : ℝ) : ℝ :=
  if x < 0 then -((-x) ^ ((1 : ℝ) / 3)) else x ^ ((1 : ℝ) / 3)

/-- `srgbToLin` / `srgbToLinear`: gamma-linearise one channel already scaled
to `[0, 1]`. -/
def srgbToLin (u : ℝ) : ℝ :=
  if u ≤ 0.04045 then u / 12.92 else ((u + 0.055) / 1.055) ^ (2.4 : ℝ)

/-- The piecewise `f` of the XYZ→Lab conversion. -/
def labF (t : ℝ) : ℝ := if t > 0.008856 then cbrtR t else 7.787 * t + 16 / 116

/-- sRGB bytes → Lab: `hexToLab` / `rgbToLab` composed (identical in both
source files). -/
def bytesToLab (r g b : ℕ) : Lab :=
  let rl := srgbToLin ((r : ℝ) / 255)
  let gl := srgbToLin ((g : ℝ) / 255)
  let bl := srgbToLin ((b : ℝ) / 255)
  let x := rl * 0.4124564 + gl * 0.3575761 + bl * 0.1804375
  let y := rl * 0.2126729 + gl * 0.7151522 + bl * 0.072175
  let z := rl * 0.0193339 + gl * 0.1191920 + bl * 0.9503041
  let fx := labF (x / 0.95047)
  let fy := labF (y / 1)
  let fz := labF (z / 1.08883)
  ⟨116 * fy - 16, 500 * (fx - fy), 200 * (fy - fz)⟩

/-- `hexToLab` on the byte-triple representation of a hex string. -/
def hexToLab (hx : HexT) : Lab := bytesToLab hx.1 hx.2.1 hx.2.2

/-- `deltaE76` from color.ts lines 137–140: Euclidean distance in Lab. -/
def deltaE76 (l1 l2 : Lab) : ℝ :=
  let dL := l1.L - l2.L
  let da := l1.a - l2.a
  let db := l1.b - l2.b
  Real.sqrt (dL * dL + da * da + db * db)

/-- `deltaE` (CIEDE2000) from colorMatch.ts lines 164–186, with the source's
sequential `if` adjustments of `dhp` modelled as two nested conditionals. -/
def deltaE (l1 l2 : Lab) : ℝ :=
  let avgLp := (l1.L + l2.L) / 2
  let C1 := hypotR l1.a l1.b
  let C2 := hypotR l2.a l2.b
  let avgC := (C1 + C2) / 2
  let G := 0.5 * (1 - Real.sqrt (avgC ^ 7 / (avgC ^ 7 + 25 ^ 7)))
  let a1p := (1 + G) * l1.a
  let a2p := (1 + G) * l2.a
  let C1p := hypotR a1p l1.b
  let C2p := hypotR a2p l2.b
  let avgCp := (C1p + C2p) / 2
  let h1p := atan2R l1.b a1p
  let h2p := atan2R l2.b a2p
  let H1p := if 0 ≤ h1p then h1p else h1p + 2 * Real.pi
  let H2p := if 0 ≤ h2p then h2p else h2p + 2 * Real.pi
  let dLp := l2.L - l1.L
  let dCp := C2p - C1p
  let dhp0 := H2p - H1p
  let dhp1 := if dhp0 > Real.pi then dhp0 - 2 * Real.pi else dhp0
  let dhp := if dhp1 < -Real.pi then dhp1 + 2 * Real.pi else dhp1
  let dHp := 2 * Real.sqrt (C1p * C2p) * Real.sin (dhp / 2)
  let avgHp := if |H1p - H2p| > Real.pi then (H1p + H2p + 2 * Real.pi) / 2
    else (H1p + H2p) / 2
  let T := 1 - 0.17 * Real.cos (avgHp - Real.pi / 6) + 0.24 * Real.cos (2 * avgHp) +
    0.32 * Real.cos (3 * avgHp + Real.pi / 30) -
    0.20 * Real.cos (4 * avgHp - 63 * Real.pi / 180)
  let Sl := 1 + 0.015 * (avgLp - 50) ^ 2 / Real.sqrt (20 + (avgLp - 50) ^ 2)
  let Sc := 1 + 0.045 * avgCp
  let Sh := 1 + 0.015 * avgCp * T
  let dt := 30 * Real.pi / 180 * Real.exp (-((avgHp * 180 / Real.pi - 275) / 25) ^ 2)
  let Rc := 2 * Real.sqrt (avgCp ^ 7 / (avgCp ^ 7 + 25 ^ 7))
  let Rt := -Rc * Real.sin (2 * dt)
  Real.sqrt ((dLp / Sl) ^ 2 + (dCp / Sc) ^ 2 + (dHp / Sh) ^ 2 +
    Rt * (dCp / Sc) * (dHp / Sh))

end

/-! ### Invariants of the hysteresis promotion loop -/

/-- Number of strong pixels of an edge-state buffer. -/
def count2 (a : List ℕ) : ℕ := a.countP fun v => v == 2

theorem getD_one_lt_length {a : List ℕ} {i : ℕ} (h : a.getD i 0 = 1) : i < a.length := by
  by_contra hge
  rw [List.getD_eq_default _ _ (Nat.le_of_not_lt hge)] at h
  simp at h

theorem getD_set_self {a : List ℕ} {i : ℕ} (h : i < a.length) (v : ℕ) :
    (a.set i v).getD i 0 = v := by
  simp [List.getD_eq_getElem?_getD, List.getElem?_set_self h]

theorem getD_set_ne {a : List ℕ} {i j : ℕ} (h : i ≠ j) (v : ℕ) :
    (a.set i v).getD j 0 = a.getD j 0 := by
  simp [List.getD_eq_getElem?_getD, List.getElem?_set_ne h]

theorem count2_set_two {a : List ℕ} {i : ℕ} (h : a.getD i 0 = 1) :
    count2 (a.set i 2) = count2 a + 1 := by
  have hlt := getD_one_lt_length h
  have hv : a[i] = 1 := by
    have hd := List.getD_eq_getElem?_getD a i 0
    rw [List.getElem?_eq_getElem hlt] at hd
    simp only [Option.getD_some] at hd
    rw [← hd]
    exact h
  rw [count2, count2, List.countP_set _ _ _ _ hlt, hv]
  simp

theorem promoteStep_inv (w : ℕ) (st : List ℕ × Bool) (c : ℕ × ℕ) :
    (promoteStep w st c).1.length = st.1.length ∧
      count2 st.1 ≤ count2 (promoteStep w st c).1 ∧
      ((promoteStep w st c).2 = st.2 ∨ count2 st.1 < count2 (promoteStep w st c).1) ∧
      (st.2 = true → (promoteStep w st c).2 = true) ∧
      ((promoteStep w st c).2 = false → (promoteStep w st c).1 = st.1 ∧ st.2 = false) := by
  by_cases hc : st.1.getD (c.1 * w + c.2) 0 = 1 ∧
      ((nbrs8 w c.1 c.2).any fun j => st.1.getD j 0 == 2) = true
  · have hstep : promoteStep w st c = (st.1.set (c.1 * w + c.2) 2, true) := by
      simp only [promoteStep]
      rw [if_pos hc]
    rw [hstep]
    dsimp only
    have h1 := count2_set_two hc.1
    exact ⟨List.length_set .., by omega, Or.inr (by omega), fun _ => rfl, by simp⟩
  · have hstep : promoteStep w st c = st := by
      simp only [promoteStep]
      rw [if_neg hc]
    rw [hstep]
    exact ⟨rfl, le_refl _, Or.inl rfl, fun h => h, fun hf => ⟨rfl, hf⟩⟩

theorem hystFold_inv (w : ℕ) (cs : List (ℕ × ℕ)) :
    ∀ st : List ℕ × Bool,
      (cs.foldl (promoteStep w) st).1.length = st.1.length ∧
        count2 st.1 ≤ count2 (cs.foldl (promoteStep w) st).1 ∧
        ((cs.foldl (promoteStep w) st).2 = st.2 ∨
          count2 st.1 < count2 (cs.foldl (promoteStep w) st).1) ∧
        (st.2 = true → (cs.foldl (promoteStep w) st).2 = true) ∧
        ((cs.foldl (promoteStep w) st).2 = false →
          (cs.foldl (promoteStep w) st).1 = st.1 ∧ st.2 = false) := by
  induction cs with
  | nil =>
    intro st
    exact ⟨rfl, le_refl _, Or.inl rfl, fun h => h, fun hf => ⟨rfl, hf⟩⟩
  | cons c cs ih =>
    intro st
    simp only [List.foldl_cons]
    obtain ⟨l1, m1, f1, p1, z1⟩ := promoteStep_inv w st c
    obtain ⟨l2, m2, f2, p2, z2⟩ := ih (promoteStep w st c)
    refine ⟨l2.trans l1, m1.trans m2, ?_, ?_, ?_⟩
    · rcases f2 with h2 | h2
      · rcases f1 with h1 | h1
        · exact Or.inl (h2.trans h1)
        · exact Or.inr (lt_of_lt_of_le h1 m2)
      · exact Or.inr (lt_of_le_of_lt m1 h2)
    · intro hb
      exact p2 (p1 hb)
    · intro hf
      obtain ⟨e2, hsf⟩ := z2 hf
      obtain ⟨e1, hbf⟩ := z1 hsf
      exact ⟨e2.trans e1, hbf⟩

theorem hystPass_false_eq (w h : ℕ) (a : List ℕ)
    (hf : (hystPass w h a).2 = false) : (hystPass w h a).1 = a :=
  ((hystFold_inv w (interiorCoords w h) (a, false)).2.2.2.2 hf).1

theorem hystPass_true_strict (w h : ℕ) (a : List ℕ)
    (ht : (hystPass w h a).2 = true) : count2 a < count2 (hystPass w h a).1 := by
  have key : (hystPass w h a).2 = (a, false).2 ∨
      count2 (a, false).1 < count2 (hystPass w h a).1 :=
    (hystFold_inv w (interiorCoords w h) (a, false)).2.2.1
  rcases key with h2 | h2
  · rw [ht] at h2
    exact absurd h2 (by simp)
  · exact h2

theorem hystPass_length (w h : ℕ) (a : List ℕ) : (hystPass w h a).1.length = a.length :=
  (hystFold_inv w (interiorCoords w h) (a, false)).1

theorem hystLoop_reaches_fixed (w h : ℕ) :
    ∀ (fuel : ℕ) (a : List ℕ), a.length + 1 ≤ fuel + count2 a →
      hystPass w h (hystLoop w h fuel a) = (hystLoop w h fuel a, false) := by
  intro fuel
  induction fuel with
  | zero =>
    intro a hle
    have := List.countP_le_length (fun v => v == 2) (l := a)
    rw [count2] at hle
    omega
  | succ fuel ih =>
    intro a hle
    rcases hp : (hystPass w h a).2 with _ | _
    · have he : hystLoop w h (fuel + 1) a = (hystPass w h a).1 := by
        simp only [hystLoop, hp]
        rfl
      have ha := hystPass_false_eq w h a hp
      rw [he, ha]
      have : hystPass w h a = ((hystPass w h a).1, (hystPass w h a).2) := rfl
      rw [ha, hp] at this
      exact this
    · have he : hystLoop w h (fuel + 1) a = hystLoop w h fuel (hystPass w h a).1 := by
        simp only [hystLoop, hp]
        rfl
      rw [he]
      apply ih
      have hlen := hystPass_length w h a
      have hcnt := hystPass_true_strict w h a hp
      omega

theorem hysteresis_is_fixed (nms : List ℝ) (w h : ℕ) (hi lo : ℝ) :
    hystPass w h (hysteresis nms w h hi lo) = (hysteresis nms w h hi lo, false) := by
  apply hystLoop_reaches_fixed
  have hlen : (classify nms hi lo).length = nms.length := List.length_map ..
  omega

theorem hystFold_false_not_promotable (w : ℕ) (cs : List (ℕ × ℕ)) :
    ∀ a : List ℕ, cs.foldl (promoteStep w) (a, false) = (a, false) →
      ∀ c ∈ cs, ¬(a.getD (c.1 * w + c.2) 0 = 1 ∧
        ((nbrs8 w c.1 c.2).any fun j => a.getD j 0 == 2) = true) := by
  induction cs with
  | nil => simp
  | cons c0 cs ih =>
    intro a hfix c hc
    by_cases hcond : a.getD (c0.1 * w + c0.2) 0 = 1 ∧
        ((nbrs8 w c0.1 c0.2).any fun j => a.getD j 0 == 2) = true
    · exfalso
      have hstep : promoteStep w (a, false) c0 = (a.set (c0.1 * w + c0.2) 2, true) := by
        simp only [promoteStep]
        rw [if_pos hcond]
      have htrue := (hystFold_inv w cs (promoteStep w (a, false) c0)).2.2.2.1
        (by rw [hstep])
      rw [List.foldl_cons] at hfix
      rw [hfix] at htrue
      simp at htrue
    · have hstep : promoteStep w (a, false) c0 = (a, false) := by
        simp only [promoteStep]
        rw [if_neg hcond]
      rw [List.foldl_cons, hstep] at hfix
      rcases List.mem_cons.mp hc with hceq | hc2
      · subst hceq
        exact hcond
      · exact ih a hfix c hc2

theorem mem_interiorCoords {w h y x : ℕ} :
    (y, x) ∈ interiorCoords w h ↔ 1 ≤ y ∧ y < h - 1 ∧ 1 ≤ x ∧ x < w - 1 := by
  simp only [interiorCoords, List.mem_flatMap, List.mem_map, List.mem_range, Prod.mk.injEq]
  constructor
  · rintro ⟨y0, hy0, x0, hx0, hy, hx⟩
    omega
  · intro hb
    exact ⟨y - 1, by omega, x - 1, by omega, by omega, by omega⟩

/-! ### Pointwise behaviour of the loop and of medianSeal -/

theorem hystFold_getD_ne_one (w : ℕ) (cs : List (ℕ × ℕ)) :
    ∀ (st : List ℕ × Bool) (i : ℕ), st.1.getD i 0 ≠ 1 →
      (cs.foldl (promoteStep w) st).1.getD i 0 = st.1.getD i 0 := by
  induction cs with
  | nil => intro st i _; rfl
  | cons c cs ih =>
    intro st i hne
    simp only [List.foldl_cons]
    by_cases hcond : st.1.getD (c.1 * w + c.2) 0 = 1 ∧
        ((nbrs8 w c.1 c.2).any fun j => st.1.getD j 0 == 2) = true
    · have hstep : promoteStep w st c = (st.1.set (c.1 * w + c.2) 2, true) := by
        simp only [promoteStep]
        rw [if_pos hcond]
      have hij : c.1 * w + c.2 ≠ i := fun he => hne (he ▸ hcond.1)
      have hpreserve : (st.1.set (c.1 * w + c.2) 2).getD i 0 = st.1.getD i 0 :=
        getD_set_ne hij 2
      rw [hstep, ih _ i (by rw [hpreserve]; exact hne)]
      exact hpreserve
    · have hstep : promoteStep w st c = st := by
        simp only [promoteStep]
        rw [if_neg hcond]
      rw [hstep, ih st i hne]

theorem hystLoop_getD_ne_one (w h : ℕ) :
    ∀ (fuel : ℕ) (a : List ℕ) (i : ℕ), a.getD i 0 ≠ 1 →
      (hystLoop w h fuel a).getD i 0 = a.getD i 0 := by
  intro fuel
  induction fuel with
  | zero => intro a i _; rfl
  | succ fuel ih =>
    intro a i hne
    have hpass : (hystPass w h a).1.getD i 0 = a.getD i 0 :=
      hystFold_getD_ne_one w (interiorCoords w h) (a, false) i hne
    rcases hp : (hystPass w h a).2 with _ | _
    · have he : hystLoop w h (fuel + 1) a = (hystPass w h a).1 := by
        simp only [hystLoop, hp]
        rfl
      rw [he, hpass]
    · have he : hystLoop w h (fuel + 1) a = hystLoop w h fuel (hystPass w h a).1 := by
        simp only [hystLoop, hp]
        rfl
      rw [he, ih _ i (by rw [hpass]; exact hne), hpass]

theorem hystFold_getD_cases (w : ℕ) (cs : List (ℕ × ℕ)) :
    ∀ (st : List ℕ × Bool) (i : ℕ),
      (cs.foldl (promoteStep w) st).1.getD i 0 = st.1.getD i 0 ∨
        (cs.foldl (promoteStep w) st).1.getD i 0 = 2 := by
  induction cs with
  | nil => intro st i; exact Or.inl rfl
  | cons c cs ih =>
    intro st i
    simp only [List.foldl_cons]
    by_cases hcond : st.1.getD (c.1 * w + c.2) 0 = 1 ∧
        ((nbrs8 w c.1 c.2).any fun j => st.1.getD j 0 == 2) = true
    · have hstep : promoteStep w st c = (st.1.set (c.1 * w + c.2) 2, true) := by
        simp only [promoteStep]
        rw [if_pos hcond]
      rw [hstep]
      rcases ih (st.1.set (c.1 * w + c.2) 2, true) i with hcase | hcase

      · by_cases hij : c.1 * w + c.2 = i
        · subst hij
          rw [hcase, getD_set_self (getD_one_lt_length hcond.1) 2]
          exact Or.inr rfl
        · rw [hcase, getD_set_ne hij 2]
          exact Or.inl rfl
      · exact Or.inr hcase
    · have hstep : promoteStep w st c = st := by
        simp only [promoteStep]
        rw [if_neg hcond]
      rw [hstep]
      exact ih st i

theorem hystLoop_getD_cases (w h : ℕ) :
    ∀ (fuel : ℕ) (a : List ℕ) (i : ℕ),
      (hystLoop w h fuel a).getD i 0 = a.getD i 0 ∨ (hystLoop w h fuel a).getD i 0 = 2 := by
  intro fuel
  induction fuel with
  | zero => intro a i; exact Or.inl rfl
  | succ fuel ih =>
    intro a i
    rcases hp : (hystPass w h a).2 with _ | _
    · have he : hystLoop w h (fuel + 1) a = (hystPass w h a).1 := by
        simp only [hystLoop, hp]
        rfl
      rw [he]
      exact hystFold_getD_cases w (interiorCoords w h) (a, false) i
    · have he : hystLoop w h (fuel + 1) a = hystLoop w h fuel (hystPass w h a).1 := by
        simp only [hystLoop, hp]
        rfl
      rw [he]
      rcases ih (hystPass w h a).1 i with hcase | hcase
      · rw [hcase]
        exact hystFold_getD_cases w (interiorCoords w h) (a, false) i
      · exact Or.inr hcase

theorem classify_getD_cases (nms : List ℝ) (hi lo : ℝ) (i : ℕ) :
    (classify nms hi lo).getD i 0 = 0 ∨ (classify nms hi lo).getD i 0 = 1 ∨
      (classify nms hi lo).getD i 0 = 2 := by
  by_cases hlt : i < nms.length
  · have hlen : i < (classify nms hi lo).length := by
      simpa [classify] using hlt
    rw [List.getD_eq_getElem?_getD, List.getElem?_eq_getElem hlen]
    have : (classify nms hi lo)[i] =
        if hi ≤ nms[i] then 2 else if lo ≤ nms[i] then 1 else 0 := by
      simp [classify]
    rw [this]
    split
    · exact Or.inr (Or.inr rfl)
    · split
      · exact Or.inr (Or.inl rfl)
      · exact Or.inl rfl
  · rw [List.getD_eq_default]
    · exact Or.inl rfl
    · simpa [classify] using Nat.le_of_not_lt hlt

theorem medianSeal_getD (s : List ℕ) (w h i : ℕ) (hlt : i < s.length) :
    (medianSeal s w h).getD i 0 =
      if 1 ≤ i / w ∧ i / w < h - 1 ∧ 1 ≤ i % w ∧ i % w < w - 1 then
        (if 5 ≤ (nbrs9 w (i / w) (i % w)).countP (fun j => s.getD j 0 == 2) then 2
          else s.getD i 0)
      else s.getD i 0 := by
  unfold medianSeal
  rw [List.getD_eq_getElem?_getD, List.getElem?_map, List.getElem?_range hlt]
  rfl

theorem medianSeal_getD_oob (s : List ℕ) (w h i : ℕ) (hge : s.length ≤ i) :
    (medianSeal s w h).getD i 0 = 0 := by
  apply List.getD_eq_default
  simpa [medianSeal] using hge

theorem medianSeal_getD_cases (s : List ℕ) (w h i : ℕ) :
    (medianSeal s w h).getD i 0 = s.getD i 0 ∨ (medianSeal s w h).getD i 0 = 2 := by
  by_cases hlt : i < s.length
  · rw [medianSeal_getD s w h i hlt]
    split
    · split
      · exact Or.inr rfl
      · exact Or.inl rfl
    · exact Or.inl rfl
  · rw [medianSeal_getD_oob s w h i (Nat.le_of_not_lt hlt),
      List.getD_eq_default _ _ (Nat.le_of_not_lt hlt)]
    exact Or.inl rfl

/-! ### Claims C5, C9, C10: hysteresis and the morphological seal -/

/-- **C5** (amended): after hysteresis linking (and the seal) every pixel of
the edge-state buffer is one of {0 background, 1 weak, 2 strong} — unpromoted
weak pixels *remain weak in the buffer* — and the final paint stage maps
exactly the strong pixels to black, so a weak pixel renders as background
(white 255) in the final output. -/
theorem C5_tri_valued_and_weak_renders_white
    (nms : List ℝ) (w h : ℕ) (hi lo : ℝ) (i : ℕ) :
    ((medianSeal (hysteresis nms w h hi lo) w h).getD i 0 = 0 ∨
      (medianSeal (hysteresis nms w h hi lo) w h).getD i 0 = 1 ∨
      (medianSeal (hysteresis nms w h hi lo) w h).getD i 0 = 2) ∧
      (∀ v : ℕ, v ≠ 2 → renderPixel v = 255) := by
  constructor
  · have h1 := medianSeal_getD_cases (hysteresis nms w h hi lo) w h i
    have h2 := hystLoop_getD_cases w h (nms.length + 1) (classify nms hi lo) i
    have h3 := classify_getD_cases nms hi lo i
    unfold hysteresis at h1 ⊢
    rcases h1 with he | he <;> rw [he]
    · rcases h2 with hf | hf <;> rw [hf]
      · exact h3
      · exact Or.inr (Or.inr rfl)
    · exact Or.inr (Or.inr rfl)
  · intro v hv
    simp [renderPixel, hv]

/-- **C5** (counterexample to the claim as stated): a weak pixel that never
acquires a strong neighbour stays at value 1 (weak) in the edge-state buffer
after hysteresis and the seal — the buffer is not two-valued. -/
theorem C5_weak_pixel_remains_in_buffer :
    (medianSeal (hysteresis [(3 : ℝ), 0, 0, 0, 0, 0, 0, 0, 0] 3 3 5 1) 3 3).getD 0 0 = 1 := by
  have hcl : classify [(3 : ℝ), 0, 0, 0, 0, 0, 0, 0, 0] 5 1 =
      [1, 0, 0, 0, 0, 0, 0, 0, 0] := by
    norm_num [classify]
  unfold hysteresis
  rw [hcl]
  norm_num
  decide

/-- Witness for C5 at a concrete input. -/
theorem C5_witness :
    ((medianSeal (hysteresis [(0 : ℝ)] 1 1 0 0) 1 1).getD 0 0 = 0 ∨
      (medianSeal (hysteresis [(0 : ℝ)] 1 1 0 0) 1 1).getD 0 0 = 1 ∨
      (medianSeal (hysteresis [(0 : ℝ)] 1 1 0 0) 1 1).getD 0 0 = 2) ∧
      renderPixel 1 = 255 :=
  ⟨(C5_tri_valued_and_weak_renders_white [(0 : ℝ)] 1 1 0 0 0).1,
    (C5_tri_valued_and_weak_renders_white [(0 : ℝ)] 1 1 0 0 0).2 1 (by decide)⟩

/-- **C9** (amended): the hysteresis output is a fixed point of the promotion
pass — one more full scan performs no promotion — and no *interior* weak pixel
is 8-adjacent to a strong pixel.  (A *border* weak pixel is outside the scan
and can keep a strong neighbour; see the counterexample.) -/
theorem C9_hysteresis_fixed_point (nms : List ℝ) (w h : ℕ) (hi lo : ℝ) :
    hystPass w h (hysteresis nms w h hi lo) = (hysteresis nms w h hi lo, false) ∧
      ∀ y x : ℕ, 1 ≤ y → y < h - 1 → 1 ≤ x → x < w - 1 →
        (hysteresis nms w h hi lo).getD (y * w + x) 0 = 1 →
        ∀ j ∈ nbrs8 w y x, (hysteresis nms w h hi lo).getD j 0 ≠ 2 := by
  refine ⟨hysteresis_is_fixed nms w h hi lo, ?_⟩
  intro y x hy1 hy2 hx1 hx2 hweak j hj h2
  have hfix : (interiorCoords w h).foldl (promoteStep w)
      (hysteresis nms w h hi lo, false) = (hysteresis nms w h hi lo, false) :=
    hysteresis_is_fixed nms w h hi lo
  have hmem : (y, x) ∈ interiorCoords w h := mem_interiorCoords.mpr ⟨hy1, hy2, hx1, hx2⟩
  have hnp := hystFold_false_not_promotable w (interiorCoords w h)
    (hysteresis nms w h hi lo) hfix (y, x) hmem
  apply hnp
  refine ⟨hweak, ?_⟩
  rw [List.any_eq_true]
  exact ⟨j, hj, by rw [h2]; rfl⟩

/-- **C9** (counterexample to "no weak pixel is 8-adjacent to a strong
pixel"): on a 3×3 grid with a weak corner (0,0) and a strong centre (1,1),
the corner is 8-adjacent to the centre but is never promoted — the promotion
scan only visits interior pixels — so hysteresis leaves a weak pixel adjacent
to a strong one. -/
theorem C9_border_weak_keeps_strong_neighbour :
    0 ∈ nbrs8 3 1 1 ∧
      (hysteresis [(3 : ℝ), 0, 0, 0, 10, 0, 0, 0, 0] 3 3 5 1).getD 0 0 = 1 ∧
      (hysteresis [(3 : ℝ), 0, 0, 0, 10, 0, 0, 0, 0] 3 3 5 1).getD 4 0 = 2 := by
  have hcl : classify [(3 : ℝ), 0, 0, 0, 10, 0, 0, 0, 0] 5 1 =
      [1, 0, 0, 0, 2, 0, 0, 0, 0] := by
    norm_num [classify]
  refine ⟨by decide, ?_, ?_⟩ <;>
    · unfold hysteresis
      rw [hcl]
      norm_num
      decide

/-- Witness for C9 at a concrete input: a lone interior weak pixel is a fixed
point and has no strong neighbour. -/
theorem C9_witness :
    hystPass 3 3 (hysteresis [(0 : ℝ), 0, 0, 0, 3, 0, 0, 0, 0] 3 3 5 1) =
      (hysteresis [(0 : ℝ), 0, 0, 0, 3, 0, 0, 0, 0] 3 3 5 1, false) ∧
      (hysteresis [(0 : ℝ), 0, 0, 0, 3, 0, 0, 0, 0] 3 3 5 1).getD 0 0 ≠ 2 := by
  have happ := C9_hysteresis_fixed_point [(0 : ℝ), 0, 0, 0, 3, 0, 0, 0, 0] 3 3 5 1
  have hcl : classify [(0 : ℝ), 0, 0, 0, 3, 0, 0, 0, 0] 5 1 =
      [0, 0, 0, 0, 1, 0, 0, 0, 0] := by
    norm_num [classify]
  have hweak : (hysteresis [(0 : ℝ), 0, 0, 0, 3, 0, 0, 0, 0] 3 3 5 1).getD 4 0 = 1 := by
    unfold hysteresis
    rw [hcl]
    norm_num
    decide
  exact ⟨happ.1,
    happ.2 1 1 (by decide) (by decide) (by decide) (by decide) hweak 0 (by decide)⟩

/-- **C10**: hysteresis and the seal are monotone on the strong set — a pixel
classified strong on entry stays strong, a background pixel is never changed
by the promotion loop, `medianSeal` never demotes a strong pixel, and the
border ring is copied through `medianSeal` unchanged. -/
theorem C10_strong_set_monotone
    (nms : List ℝ) (w h : ℕ) (hi lo : ℝ) (s : List ℕ) (i : ℕ) :
    ((classify nms hi lo).getD i 0 = 2 → (hysteresis nms w h hi lo).getD i 0 = 2) ∧
      ((classify nms hi lo).getD i 0 = 0 → (hysteresis nms w h hi lo).getD i 0 = 0) ∧
      (s.getD i 0 = 2 → (medianSeal s w h).getD i 0 = 2) ∧
      (i < s.length → ¬(1 ≤ i / w ∧ i / w < h - 1 ∧ 1 ≤ i % w ∧ i % w < w - 1) →
        (medianSeal s w h).getD i 0 = s.getD i 0) := by
  refine ⟨?_, ?_, ?_, ?_⟩
  · intro h2
    have hne := hystLoop_getD_ne_one w h (nms.length + 1) (classify nms hi lo) i
      (by rw [h2]; omega)
    unfold hysteresis
    rw [hne, h2]
  · intro h0
    have hne := hystLoop_getD_ne_one w h (nms.length + 1) (classify nms hi lo) i
      (by rw [h0]; omega)
    unfold hysteresis
    rw [hne, h0]
  · intro h2
    have hlt : i < s.length := by
      by_contra hge
      rw [List.getD_eq_default _ _ (Nat.le_of_not_lt hge)] at h2
      exact absurd h2 (by decide)
    rw [medianSeal_getD s w h i hlt]
    split
    · split
      · rfl
      · exact h2
    · exact h2
  · intro hlt hnint
    rw [medianSeal_getD s w h i hlt, if_neg hnint]

/-- Witness for C10 at concrete inputs: a strong classification survives the
loop, strong pixels survive the seal, and a border pixel is copied. -/
theorem C10_witness :
    (hysteresis [(0 : ℝ)] 1 1 0 0).getD 0 0 = 2 ∧
      (medianSeal [2] 1 1).getD 0 0 = 2 ∧
      (medianSeal [2, 0, 0, 0] 2 2).getD 3 0 = 0 := by
  have hc : (classify [(0 : ℝ)] 0 0).getD 0 0 = 2 := by
    simp [classify]
  refine ⟨(C10_strong_set_monotone [(0 : ℝ)] 1 1 0 0 [] 0).1 hc,
    (C10_strong_set_monotone [] 1 1 0 0 [2] 0).2.2.1 (by decide), ?_⟩
  have hb := (C10_strong_set_monotone [] 2 2 0 0 [2, 0, 0, 0] 3).2.2.2
    (by decide) (by decide)
  rw [hb]
  rfl

/-! ### Claims C1–C3: dominant-color extraction -/

theorem rgbToHex_336699 : rgbToHex ⟨51, 102, 153, 5⟩ = (51, 102, 153) := by
  norm_num [rgbToHex, clampByte, jsRound]
  decide

theorem sortCenters_singleton (c : Center) : sortCentersByWeight [c] = [c] := by
  simp [sortCentersByWeight, List.enum, List.mergeSort_singleton]

/-- **C1** (code bug, failing input): on a 1×1 fully-opaque `#336699` image
with `k = 1`, `getDominantHexes` returns the empty list — the de-duplication
filter drops every entry — so no hex within any tolerance of `#336699` is
returned and the result length is 0, not ≥ the number of surviving clusters
(which is 1). -/
theorem C1_solid_color_image_returns_nothing :
    getDominantHexes [⟨51, 102, 153, 255⟩] 1 (fun _ => 0) = [] := by
  simp [getDominantHexes, dedupJS_eq_nil]

/-- **C2** (code bug, failing input): for the center list consisting of a
single (hence heaviest) cluster at `#336699` with weight 5, the hex list
before de-duplication is exactly `[#336699]`, yet the de-duplication filter
returns `[]`: the heaviest cluster's hex is *not* present in the returned
list, and no first occurrence is kept. -/
theorem C2_dedup_drops_heaviest_hex :
    (sortCentersByWeight [⟨51, 102, 153, 5⟩]).map rgbToHex = [(51, 102, 153)] ∧
      dedupJS ((sortCentersByWeight [⟨51, 102, 153, 5⟩]).map rgbToHex) = [] :=
  ⟨by rw [sortCenters_singleton]; simp [rgbToHex_336699], dedupJS_eq_nil _⟩

/-- **C3**: if the noise filter removes every sampled pixel, the extractor
returns the empty list — an explicit empty marker — without running any
clustering arithmetic: `kmeansPP` returns `[]` on an empty sample list before
any division is reached (its divisions are additionally guarded by
`sum0 = 0` and `0 < s.w` checks, mirroring `|| 1` and `s.w > 0` in the
source), so no stage divides by zero. -/
theorem C3_empty_sample_set_returns_empty_marker
    (pixels : List RGBA) (k : ℕ) (rnd : ℕ → ℚ)
    (h : (samplePixels pixels).filter keepPixel = []) :
    getDominantHexes pixels k rnd = [] := by
  simp [getDominantHexes, h, kmeansPP, sortCentersByWeight, dedupJS]

/-- Witness for C3 at a concrete input: a single near-white pixel is filtered
out, and the extractor returns the empty marker. -/
theorem C3_empty_sample_set_witness :
    (samplePixels [⟨255, 255, 255, 255⟩]).filter keepPixel = [] ∧
      getDominantHexes [⟨255, 255, 255, 255⟩] 10 (fun _ => 0) = [] :=
  ⟨by decide, C3_empty_sample_set_returns_empty_marker _ _ _ (by decide)⟩


/-! ### Claim C8: metric-like properties of the colour distances -/

/-- **C8**: both perceptual distances vanish on identical Lab inputs and are
nonnegative on all pairs. -/
theorem C8_deltaE_self_zero_and_nonneg (x y : Lab) :
    deltaE76 x x = 0 ∧ deltaE x x = 0 ∧ 0 ≤ deltaE76 x y ∧ 0 ≤ deltaE x y := by
  refine ⟨?_, ?_, ?_, ?_⟩
  · simp [deltaE76]
  · have hpi := Real.pi_pos
    have h1 : ¬((0 : ℝ) > Real.pi) := by linarith
    have h2 : ¬((0 : ℝ) < -Real.pi) := by linarith
    simp [deltaE, h1, h2]
  · unfold deltaE76
    exact Real.sqrt_nonneg _
  · unfold deltaE
    exact Real.sqrt_nonneg _


/-! ### PaletteMatcher: matchToFaberCastell (dE76) and nearestFC (dE2000) -/

noncomputable section

/-- `FCLike` of colorMatch.ts; the name string is an opaque token (its
content is never inspected by the matcher). -/
structure FCLike where
  id : ℕ
  name : ℕ
  hex : HexT

/-- One ranked match of `nearestFC` (`{id, name, hex, deltaE}`). -/
structure FCMatch where
  id : ℕ
  name : ℕ
  hex : HexT
  deltaE : ℝ

/-- `FCPencil` of color.ts: optional precomputed rgb bytes, optional set
tags (the keys of the `sets` record that are true). -/
structure FCPencil where
  id : ℕ
  name : ℕ
  hex : HexT
  rgb : Option (ℕ × ℕ × ℕ)
  sets : Option (List ℕ)

/-- One scored entry of `matchToFaberCastell` (`{pencil, dE}`). -/
structure FCScore where
  pencil : FCPencil
  dE : ℝ

/-- The comparator used to model ES2019 `Array.prototype.sort` with
`(a, b) => key a - key b`: that sort is *stable*, and a stable sort by `key`
coincides with the lexicographic sort by (key, original position). -/
def lexLe {α : Type} (key : α → ℝ) (a b : ℕ × α) : Bool :=
  decide (key a.2 < key b.2 ∨ (key a.2 = key b.2 ∧ a.1 ≤ b.1))

/-- The JS stable sort on the enumerated list (indices retained). -/
def stableSortKeyed {α : Type} (key : α → ℝ) (l : List α) : List (ℕ × α) :=
  l.enum.mergeSort (lexLe key)

/-- The JS stable sort, indices erased. -/
def stableSortBy {α : Type} (key : α → ℝ) (l : List α) : List α :=
  (stableSortKeyed key l).map fun p => p.2

/-- `getFCPalette` of color.ts lines 70–77, with the module-level `FC_ALL`
array passed explicitly; list membership models `p.sets[setSize] === true`. -/
def getFCPalette (fcAll : List FCPencil) (setSize : Option ℕ) : List FCPencil :=
  match setSize with
  | none => fcAll
  | some s => fcAll.filter fun p =>
      match p.sets with
      | some l => decide (s ∈ l)
      | none => false

/-- `matchToFaberCastell` of color.ts lines 79–99: clamp `topK` to `[1, 5]`
(default 1), precompute palette Labs (from `rgb` when present, else from the
hex), then for each source hex score every entry with dE76, stable-sort
ascending by the score and take the first `topK`.  (`normalizeHex` is the
identity on the byte-triple representation of hex strings.) -/
def matchToFaberCastell (fcAll : List FCPencil) (sourceHexes : List HexT)
    (setSize : Option ℕ) (topK : Option ℕ) : List (HexT × List FCScore) :=
  let palette := getFCPalette fcAll setSize
  let tk := max 1 (min 5 (topK.getD 1))
  let palLab := palette.map fun p =>
    (p, match p.rgb with
        | some t => bytesToLab t.1 t.2.1 t.2.2
        | none => hexToLab p.hex)
  sourceHexes.map fun hx =>
    let srcLab := hexToLab hx
    let scored := stableSortBy (fun s : FCScore => s.dE)
      (palLab.map fun pr => ⟨pr.1, deltaE76 srcLab pr.2⟩)
    (hx, scored.take tk)

/-- One result record of `nearestFC` (`{inputHex, matches}`; the `matches`
field is renamed `matchList` because `matches` is a Lean keyword). -/
structure NearestResult where
  inputHex : HexT
  matchList : List FCMatch

/-- `nearestFC` of colorMatch.ts lines 189–203: precompute library Labs,
then for each input hex score every entry with dE2000 (`deltaE`),
stable-sort ascending and `slice(0, k)` — `k` is NOT clamped here. -/
def nearestFC (inputHexes : List HexT) (lib : List FCLike) (k : ℕ) :
    List NearestResult :=
  let libLab := lib.map fun p => (p, hexToLab p.hex)
  inputHexes.map fun hx =>
    let lab := hexToLab hx
    let ranked := stableSortBy (fun m : FCMatch => m.deltaE)
      (libLab.map fun pr => ⟨pr.1.id, pr.1.name, pr.1.hex, deltaE lab pr.2⟩)
    ⟨hx, ranked.take k⟩

end

/-! ### Sorting facts for the matchers -/

theorem lexLe_trans {α : Type} (key : α → ℝ) (a b c : ℕ × α)
    (hab : lexLe key a b = true) (hbc : lexLe key b c = true) :
    lexLe key a c = true := by
  rw [lexLe, decide_eq_true_eq] at hab hbc ⊢
  rcases hab with h | ⟨he, hi⟩ <;> rcases hbc with h2 | ⟨he2, hi2⟩
  · exact Or.inl (h.trans h2)
  · exact Or.inl (he2 ▸ h)
  · exact Or.inl (he ▸ h2)
  · exact Or.inr ⟨he.trans he2, hi.trans hi2⟩

theorem lexLe_total {α : Type} (key : α → ℝ) (a b : ℕ × α) :
    (lexLe key a b || lexLe key b a) = true := by
  rw [Bool.or_eq_true, lexLe, lexLe, decide_eq_true_eq, decide_eq_true_eq]
  rcases lt_trichotomy (key a.2) (key b.2) with h | h | h
  · exact Or.inl (Or.inl h)
  · rcases Nat.le_total a.1 b.1 with hi | hi
    · exact Or.inl (Or.inr ⟨h, hi⟩)
    · exact Or.inr (Or.inr ⟨h.symm, hi⟩)
  · exact Or.inr (Or.inl h)

/-- The stable sort is sorted for the full lexicographic order — ascending
distance with ties broken by the original palette position. -/
theorem stableSortKeyed_pairwise {α : Type} (key : α → ℝ) (l : List α) :
    (stableSortKeyed key l).Pairwise fun a b =>
      key a.2 < key b.2 ∨ (key a.2 = key b.2 ∧ a.1 ≤ b.1) := by
  have hs := List.sorted_mergeSort (lexLe_trans key) (lexLe_total key) l.enum
  exact hs.imp fun h => by
    rw [lexLe, decide_eq_true_eq] at h
    exact h

theorem stableSortBy_pairwise {α : Type} (key : α → ℝ) (l : List α) :
    (stableSortBy key l).Pairwise fun a b => key a ≤ key b := by
  unfold stableSortBy
  rw [List.pairwise_map]
  refine (stableSortKeyed_pairwise key l).imp ?_
  rintro a b (h | ⟨he, hi⟩)
  · exact le_of_lt h
  · exact le_of_eq he

theorem stableSortBy_length {α : Type} (key : α → ℝ) (l : List α) :
    (stableSortBy key l).length = l.length := by
  simp [stableSortBy, stableSortKeyed, List.length_mergeSort]

/-! ### Claim C6: the two palette matchers -/

/-- **C6** (amended): for every palette and source list, each result's match
list is sorted ascending by the perceptual distance, with ties broken by
original palette order (the underlying stable sort is sorted for the full
(distance, position) lexicographic order); `matchToFaberCastell` clamps
`topK` to `[1, 5]` and returns at most that many entries; `nearestFC` returns
at most `k` entries but does NOT clamp `k` to `[1, 5]`. -/
theorem C6_matchers_sorted_and_bounded
    (fcAll : List FCPencil) (hexes : List HexT) (ss : Option ℕ) (tk : Option ℕ)
    (lib : List FCLike) (inputs : List HexT) (k : ℕ) :
    (1 ≤ max 1 (min 5 (tk.getD 1)) ∧ max 1 (min 5 (tk.getD 1)) ≤ 5) ∧
      (∀ r ∈ matchToFaberCastell fcAll hexes ss tk,
        r.2.length ≤ max 1 (min 5 (tk.getD 1)) ∧
          r.2.Pairwise fun a b => a.dE ≤ b.dE) ∧
      (∀ r ∈ nearestFC inputs lib k,
        r.matchList.length ≤ k ∧
          r.matchList.Pairwise fun a b => a.deltaE ≤ b.deltaE) ∧
      (∀ (key : FCScore → ℝ) (l : List FCScore),
        (stableSortKeyed key l).Pairwise fun a b =>
          key a.2 < key b.2 ∨ (key a.2 = key b.2 ∧ a.1 ≤ b.1)) := by
  refine ⟨⟨le_max_left _ _, by omega⟩, ?_, ?_, fun key l => stableSortKeyed_pairwise key l⟩
  · intro r hr
    unfold matchToFaberCastell at hr
    simp only [List.mem_map] at hr
    obtain ⟨hx, hmem, hrfl⟩ := hr
    rw [← hrfl]
    constructor
    · rw [List.length_take]
      exact min_le_left _ _
    · exact List.Pairwise.sublist (List.take_sublist _ _) (stableSortBy_pairwise _ _)
  · intro r hr
    unfold nearestFC at hr
    simp only [List.mem_map] at hr
    obtain ⟨hx, hmem, hrfl⟩ := hr
    rw [← hrfl]
    constructor
    · rw [List.length_take]
      exact min_le_left _ _
    · exact List.Pairwise.sublist (List.take_sublist _ _) (stableSortBy_pairwise _ _)

/-- **C6** (counterexample to "`topK` is clamped to `[1,5]` … for both
matchers"): `nearestFC` with `k = 6` on a six-entry library returns six
matches — more than the claimed hard cap of 5. -/
theorem C6_nearestFC_topK_not_clamped :
    ((nearestFC [((0, 0, 0) : HexT)]
        [⟨1, 1, (0, 0, 0)⟩, ⟨2, 2, (0, 0, 0)⟩, ⟨3, 3, (0, 0, 0)⟩,
         ⟨4, 4, (0, 0, 0)⟩, ⟨5, 5, (0, 0, 0)⟩, ⟨6, 6, (0, 0, 0)⟩] 6).getD 0
      ⟨(0, 0, 0), []⟩).matchList.length = 6 := by
  simp [nearestFC, stableSortBy, stableSortKeyed, List.length_mergeSort]

/-- Witness for C6 at concrete inputs (empty palette/library, so the match
lists are empty and the bounds are trivially realised). -/
theorem C6_witness :
    ((((0, 0, 0) : HexT), ([] : List FCScore)).2.length ≤
        max 1 (min 5 ((none : Option ℕ).getD 1)) ∧
      (((0, 0, 0) : HexT), ([] : List FCScore)).2.Pairwise (fun a b => a.dE ≤ b.dE)) ∧
      ((⟨(0, 0, 0), []⟩ : NearestResult).matchList.length ≤ 0 ∧
        (⟨(0, 0, 0), []⟩ : NearestResult).matchList.Pairwise
          fun a b => a.deltaE ≤ b.deltaE) :=
  ⟨(C6_matchers_sorted_and_bounded [] [(0, 0, 0)] none none [] [] 0).2.1
      ((0, 0, 0), []) (by simp [matchToFaberCastell, getFCPalette, stableSortBy,
        stableSortKeyed]),
    (C6_matchers_sorted_and_bounded [] [] none none [] [(0, 0, 0)] 0).2.2.1
      ⟨(0, 0, 0), []⟩ (by simp [nearestFC, stableSortBy, stableSortKeyed])⟩

/-! ### Claim C4: a uniform image through the edge pipeline -/

theorem getD_replicate {α : Type} (a d : α) (n i : ℕ) :
    (List.replicate n a).getD i d = if i < n then a else d := by
  rw [List.getD_eq_getElem?_getD, List.getElem?_replicate]
  split <;> rfl

theorem idx_lt_of_lt {y x w h : ℕ} (hy : y < h) (hx : x < w) : y * w + x < w * h :=
  calc y * w + x < y * w + w := by omega
  _ = (y + 1) * w := by ring
  _ ≤ h * w := Nat.mul_le_mul_right w hy
  _ = w * h := Nat.mul_comm h w

theorem toGrayscale_const (n cb a : ℕ) (hcb : cb ≤ 255) :
    toGrayscale (List.replicate n (⟨cb, cb, cb, a⟩ : RGBA)) = List.replicate n (cb : ℝ) := by
  unfold toGrayscale
  rw [List.map_replicate]
  congr 1
  dsimp only
  have h1 : 0.2126 * (cb : ℝ) + 0.7152 * (cb : ℝ) + 0.0722 * (cb : ℝ) = (cb : ℝ) := by
    ring_nf
  rw [h1, jsTruncR, if_neg (by simp), Int.floor_natCast]
  have h3 : clampByte (cb : ℤ) = cb := by
    rw [clampByte]
    omega
  rw [h3]

theorem bilateral3_const (w h : ℕ) (v σ : ℝ) :
    bilateral3 (List.replicate (w * h) v) w h σ =
      List.replicate (w * h) ((clampByte (jsTruncR v) : ℕ) : ℝ) := by
  apply List.ext_getElem
  · simp [bilateral3]
  intro i h1 h2
  have hi : i < w * h := by simpa [bilateral3] using h1
  have hw : 0 < w := by
    rcases Nat.eq_zero_or_pos w with h0 | h0
    · rw [h0] at hi
      omega
    · exact h0
  have hh : 0 < h := by
    rcases Nat.eq_zero_or_pos h with h0 | h0
    · rw [h0, Nat.mul_zero] at hi
      omega
    · exact h0
  rw [List.getElem_replicate]
  unfold bilateral3
  rw [List.getElem_map, List.getElem_range]
  dsimp only
  have hgi : (List.replicate (w * h) v).getD i 0 = v := by
    rw [getD_replicate, if_pos hi]
  have hnb : ∀ d : ℤ × ℤ,
      (List.replicate (w * h) v).getD
        (clampIdx ((i / w : ℕ) + d.1) ((h : ℤ) - 1) * w +
          clampIdx ((i % w : ℕ) + d.2) ((w : ℤ) - 1)) 0 = v := by
    intro d
    rw [getD_replicate, if_pos]
    apply idx_lt_of_lt
    · have hle : (clampIdx ((i / w : ℕ) + d.1) ((h : ℤ) - 1) : ℤ) ≤ (h : ℤ) - 1 := by
        unfold clampIdx
        omega
      omega
    · have hle : (clampIdx ((i % w : ℕ) + d.2) ((w : ℤ) - 1) : ℤ) ≤ (w : ℤ) - 1 := by
        unfold clampIdx
        omega
      omega
  rw [List.map_map, List.map_map]
  have e1 : offsets9.map ((fun j => Real.exp (-((List.replicate (w * h) v).getD j 0 -
        (List.replicate (w * h) v).getD i 0) ^ 2 / (2 * σ ^ 2))) ∘ fun d =>
          clampIdx ((i / w : ℕ) + d.1) ((h : ℤ) - 1) * w +
            clampIdx ((i % w : ℕ) + d.2) ((w : ℤ) - 1)) =
      offsets9.map fun _ => (1 : ℝ) := by
    apply List.map_congr_left
    intro d _
    simp only [Function.comp]
    rw [hnb d, hgi]
    simp
  have e2 : offsets9.map ((fun j => Real.exp (-((List.replicate (w * h) v).getD j 0 -
        (List.replicate (w * h) v).getD i 0) ^ 2 / (2 * σ ^ 2)) *
          (List.replicate (w * h) v).getD j 0) ∘ fun d =>
          clampIdx ((i / w : ℕ) + d.1) ((h : ℤ) - 1) * w +
            clampIdx ((i % w : ℕ) + d.2) ((w : ℤ) - 1)) =
      offsets9.map fun _ => v := by
    apply List.map_congr_left
    intro d _
    simp only [Function.comp]
    rw [hnb d, hgi]
    simp
  rw [e1, e2]
  have e3 : (offsets9.map fun _ => (1 : ℝ)).sum = 9 := by
    simp [offsets9]
    norm_num
  have e4 : (offsets9.map fun _ => v).sum = 9 * v := by
    simp [offsets9]
    ring
  rw [e3, e4, if_neg (by norm_num)]
  have e5 : 9 * v / 9 = v := by ring
  rw [e5]

theorem atan2R_zero_zero : atan2R 0 0 = 0 := by
  unfold atan2R
  norm_num

theorem hypotR_zero_zero : hypotR 0 0 = 0 := by
  unfold hypotR
  norm_num

/-- Bounds of the fused Sobel kernel offsets. -/
theorem sobelK_offset_bounds (e : KE) (he : e ∈ sobelK) :
    -1 ≤ e.dy ∧ e.dy ≤ 1 ∧ -1 ≤ e.dx ∧ e.dx ≤ 1 := by
  fin_cases he <;> norm_num

theorem sobel_read_const {w h y x : ℕ} (v : ℝ) (e : KE) (he : e ∈ sobelK)
    (hy1 : 1 ≤ y) (hy2 : y < h - 1) (hx1 : 1 ≤ x) (hx2 : x < w - 1) :
    (List.replicate (w * h) v).getD ((((y : ℤ) + e.dy) * w + ((x : ℤ) + e.dx)).toNat) 0
      = v := by
  obtain ⟨hb1, hb2, hb3, hb4⟩ := sobelK_offset_bounds e he
  have hyb : 0 ≤ (y : ℤ) + e.dy ∧ (y : ℤ) + e.dy ≤ (h : ℤ) - 1 := by omega
  have hxb : 0 ≤ (x : ℤ) + e.dx ∧ (x : ℤ) + e.dx ≤ (w : ℤ) - 1 := by omega
  have hcast : ((y : ℤ) + e.dy) * w + ((x : ℤ) + e.dx) =
      ((((y : ℤ) + e.dy).toNat * w + ((x : ℤ) + e.dx).toNat : ℕ) : ℤ) := by
    push_cast [Int.toNat_of_nonneg hyb.1, Int.toNat_of_nonneg hxb.1]
    ring
  rw [hcast, Int.toNat_natCast, getD_replicate, if_pos]
  apply idx_lt_of_lt
  · omega
  · omega

theorem gxAt_const {w h y x : ℕ} (v : ℝ)
    (hy1 : 1 ≤ y) (hy2 : y < h - 1) (hx1 : 1 ≤ x) (hx2 : x < w - 1) :
    gxAt (List.replicate (w * h) v) w y x = 0 := by
  unfold gxAt
  have e1 : sobelK.map (fun e => e.gxw *
      (List.replicate (w * h) v).getD ((((y : ℤ) + e.dy) * w + ((x : ℤ) + e.dx)).toNat) 0) =
      sobelK.map fun e => e.gxw * v := by
    apply List.map_congr_left
    intro e he
    rw [sobel_read_const v e he hy1 hy2 hx1 hx2]
  rw [e1]
  simp [sobelK]

theorem gyAt_const {w h y x : ℕ} (v : ℝ)
    (hy1 : 1 ≤ y) (hy2 : y < h - 1) (hx1 : 1 ≤ x) (hx2 : x < w - 1) :
    gyAt (List.replicate (w * h) v) w y x = 0 := by
  unfold gyAt
  have e1 : sobelK.map (fun e => e.gyw *
      (List.replicate (w * h) v).getD ((((y : ℤ) + e.dy) * w + ((x : ℤ) + e.dx)).toNat) 0) =
      sobelK.map fun e => e.gyw * v := by
    apply List.map_congr_left
    intro e he
    rw [sobel_read_const v e he hy1 hy2 hx1 hx2]
  rw [e1]
  simp [sobelK]

theorem sobel_const (w h : ℕ) (v : ℝ) :
    sobel (List.replicate (w * h) v) w h =
      (List.replicate (w * h) 0, List.replicate (w * h) 0) := by
  unfold sobel
  rw [Prod.mk.injEq]
  constructor <;>
    · apply List.ext_getElem
      · simp
      intro i h1 h2
      rw [List.getElem_replicate, List.getElem_map, List.getElem_range]
      dsimp only
      split
      · rename_i hint
        obtain ⟨hy1, hy2, hx1, hx2⟩ := hint
        rw [gxAt_const v hy1 hy2 hx1 hx2, gyAt_const v hy1 hy2 hx1 hx2]
        first
        | exact hypotR_zero_zero
        | exact atan2R_zero_zero
      · rfl

theorem getD_replicate_zero (k j : ℕ) : (List.replicate k (0 : ℝ)).getD j 0 = 0 := by
  rw [getD_replicate]
  split <;> rfl

theorem nms_const (w h n m : ℕ) :
    nonMaxSuppression (List.replicate n (0 : ℝ)) (List.replicate m (0 : ℝ)) w h =
      List.replicate (w * h) 0 := by
  unfold nonMaxSuppression
  apply List.ext_getElem
  · simp
  intro i h1 h2
  rw [List.getElem_replicate, List.getElem_map, List.getElem_range]
  dsimp only
  split
  · rw [getD_replicate_zero]
    have htheta : |(0 : ℝ) * 180 / Real.pi| = 0 := by
      norm_num
    rw [htheta, if_pos (Or.inl (by norm_num))]
    rw [getD_replicate_zero, getD_replicate_zero, getD_replicate_zero]
    norm_num
  · rfl

theorem percentileThresholds_all_zero (n : ℕ) (p q : ℝ) :
    percentileThresholds (List.replicate n (0 : ℝ)) p q = (0, 0) := by
  unfold percentileThresholds
  rw [List.filter_replicate]
  norm_num

theorem classify_const_zero (n : ℕ) :
    classify (List.replicate n (0 : ℝ)) 0 0 = List.replicate n 2 := by
  unfold classify
  rw [List.map_replicate]
  norm_num

theorem hystFold_no_weak (w : ℕ) (cs : List (ℕ × ℕ)) :
    ∀ st : List ℕ × Bool, (∀ i, st.1.getD i 0 ≠ 1) → cs.foldl (promoteStep w) st = st := by
  induction cs with
  | nil => intro st _; rfl
  | cons c cs ih =>
    intro st hno
    rw [List.foldl_cons]
    have hstep : promoteStep w st c = st := by
      simp only [promoteStep]
      rw [if_neg]
      rintro ⟨hone, _⟩
      exact hno _ hone
    rw [hstep]
    exact ih st hno

theorem hystLoop_no_weak (w h fuel : ℕ) (a : List ℕ) (hno : ∀ i, a.getD i 0 ≠ 1) :
    hystLoop w h fuel a = a := by
  cases fuel with
  | zero => rfl
  | succ f =>
    have hp : hystPass w h a = (a, false) :=
      hystFold_no_weak w (interiorCoords w h) (a, false) hno
    simp only [hystLoop, hp]
    simp

theorem hysteresis_const_zero (n w h : ℕ) :
    hysteresis (List.replicate n (0 : ℝ)) w h 0 0 = List.replicate n 2 := by
  unfold hysteresis
  rw [classify_const_zero]
  apply hystLoop_no_weak
  intro i
  rw [getD_replicate]
  split <;> omega

theorem medianSeal_all_strong (n w h : ℕ) :
    medianSeal (List.replicate n 2) w h = List.replicate n 2 := by
  have hval : ∀ j, j < n → (medianSeal (List.replicate n 2) w h).getD j 0 = 2 := by
    intro j hj
    rcases medianSeal_getD_cases (List.replicate n 2) w h j with hc | hc
    · rw [hc, getD_replicate, if_pos (by simpa using hj)]
    · exact hc
  apply List.ext_getElem
  · simp [medianSeal]
  intro i h1 h2
  have hlen : i < n := by simpa using h2
  have := hval i hlen
  rw [List.getD_eq_getElem?_getD, List.getElem?_eq_getElem h1] at this
  simp only [Option.getD_some] at this
  rw [this, List.getElem_replicate]

/-- **C4** (code bug, failing input): a uniform image (every pixel the same
`cb ≤ 255`) makes the NMS output all-zero and `percentileThresholds` return
`{high: 0, low: 0}` — as the claim says — but hysteresis then classifies
*every* pixel strong (`0 ≥ 0`), and the final raster is all BLACK, not the
claimed blank white. -/
theorem C4_uniform_image_renders_all_black
    (w h cb alpha : ℕ) (hcb : cb ≤ 255) (ui : ℝ) (rnd : ℕ → ℚ) :
    nonMaxSuppression
        (sobel (bilateral3 (toGrayscale (List.replicate (w * h)
          (⟨cb, cb, cb, alpha⟩ : RGBA))) w h 18) w h).1
        (sobel (bilateral3 (toGrayscale (List.replicate (w * h)
          (⟨cb, cb, cb, alpha⟩ : RGBA))) w h 18) w h).2 w h =
      List.replicate (w * h) 0 ∧
      percentileThresholds (List.replicate (w * h) (0 : ℝ)) (0.84 : ℝ) (0.462 : ℝ) = (0, 0) ∧
      hysteresis (List.replicate (w * h) (0 : ℝ)) w h 0 0 = List.replicate (w * h) 2 ∧
      toEdgePng rnd (List.replicate (w * h) (⟨cb, cb, cb, alpha⟩ : RGBA)) w h ui =
        List.replicate (w * h) 0 := by
  have hstages : nonMaxSuppression
      (sobel (bilateral3 (toGrayscale (List.replicate (w * h)
        (⟨cb, cb, cb, alpha⟩ : RGBA))) w h 18) w h).1
      (sobel (bilateral3 (toGrayscale (List.replicate (w * h)
        (⟨cb, cb, cb, alpha⟩ : RGBA))) w h 18) w h).2 w h =
      List.replicate (w * h) 0 := by
    rw [toGrayscale_const (w * h) cb alpha hcb, bilateral3_const, sobel_const]
    exact nms_const w h (w * h) (w * h)
  refine ⟨hstages, percentileThresholds_all_zero _ _ _,
    hysteresis_const_zero _ _ _, ?_⟩
  simp only [toEdgePng]
  rw [toGrayscale_const (w * h) cb alpha hcb, bilateral3_const, sobel_const,
    nms_const w h (w * h) (w * h), percentileThresholds_all_zero]
  dsimp only
  rw [hysteresis_const_zero, medianSeal_all_strong, List.map_replicate]
  rfl

/-- Witness for C4 at a concrete input: a 3×3 all-grey-100 image with the
default `ui = 34` renders as a fully black 3×3 raster. -/
theorem C4_witness :
    toEdgePng (fun _ => 0) (List.replicate (3 * 3) (⟨100, 100, 100, 255⟩ : RGBA)) 3 3 34 =
      List.replicate (3 * 3) 0 :=
  (C4_uniform_image_renders_all_black 3 3 100 255 (by omega) 34 (fun _ => 0)).2.2.2

/-! ### Claim C7: determinism and the Math.random dependence of kmeansPP -/

theorem lloyd_succ (points : List RGB) (n : ℕ) (cs : List Center) :
    lloyd points (n + 1) cs = lloyd points n (lloydOnce points cs) := rfl

theorem lloyd_fixed (points : List RGB) (cs : List Center)
    (hfix : lloydOnce points cs = cs) : ∀ n, lloyd points n cs = cs := by
  intro n
  induction n with
  | zero => rfl
  | succ n ih => rw [lloyd_succ, hfix, ih]

theorem seedLoop_succ (points : List RGB) (k : ℕ) (rnd : ℕ → ℚ) (fuel ctr : ℕ)
    (cs : List Center) :
    seedLoop points k rnd (fuel + 1) ctr cs =
      if cs.length < k then seedLoop points k rnd fuel (ctr + 1) (seedStep points cs (rnd ctr))
      else cs := rfl

/-- The three grey samples of the C7 counterexample. -/
def pts3 : List RGB := [⟨0, 0, 0⟩, ⟨100, 100, 100⟩, ⟨255, 255, 255⟩]

/-- First `Math.random` history: 0, then 9/10 forever. -/
def rndA : ℕ → ℚ := fun n => if n = 0 then 0 else 9 / 10

/-- Second `Math.random` history: 7/10, then 1/2 forever. -/
def rndB : ℕ → ℚ := fun n => if n = 0 then 7 / 10 else 1 / 2

theorem seedA_eval : seedLoop pts3 2 rndA 2 1 [mkCenter ⟨0, 0, 0⟩] =
    [⟨0, 0, 0, 1⟩, ⟨255, 255, 255, 1⟩] := by
  rw [show (2 : ℕ) = 1 + 1 from rfl, seedLoop_succ, if_pos (by simp [mkCenter])]
  have hstep : seedStep pts3 [mkCenter ⟨0, 0, 0⟩] (rndA 1) =
      [⟨0, 0, 0, 1⟩, ⟨255, 255, 255, 1⟩] := by
    norm_num [seedStep, pts3, rndA, minD2, dist2, centerRGB, mkCenter, pickIdx]
  rw [hstep, seedLoop_succ, if_neg (by simp)]

theorem lloydA1 : lloydOnce pts3 [⟨0, 0, 0, 1⟩, ⟨255, 255, 255, 1⟩] =
    [⟨50, 50, 50, 2⟩, ⟨255, 255, 255, 1⟩] := by
  norm_num [lloydOnce, assignIdx, pts3, dist2, centerRGB, List.enum, List.enumFrom]

theorem lloydA2 : lloydOnce pts3 [⟨50, 50, 50, 2⟩, ⟨255, 255, 255, 1⟩] =
    [⟨50, 50, 50, 2⟩, ⟨255, 255, 255, 1⟩] := by
  norm_num [lloydOnce, assignIdx, pts3, dist2, centerRGB, List.enum, List.enumFrom]

theorem kmeansA_eval : kmeansPP pts3 2 rndA = [⟨50, 50, 50, 2⟩, ⟨255, 255, 255, 1⟩] := by
  unfold kmeansPP
  rw [if_neg (by simp [pts3])]
  have hidx : (jsTruncQ (rndA 0 * ((pts3.length : ℕ) : ℚ))).toNat = 0 := by
    norm_num [jsTruncQ, rndA, pts3]
  rw [hidx]
  dsimp only
  have hinit : pts3.getD 0 ⟨0, 0, 0⟩ = ⟨0, 0, 0⟩ := rfl
  rw [hinit, seedA_eval, show (8 : ℕ) = 7 + 1 from rfl, lloyd_succ, lloydA1]
  exact lloyd_fixed pts3 _ lloydA2 7

theorem seedB_eval : seedLoop pts3 2 rndB 2 1 [mkCenter ⟨255, 255, 255⟩] =
    [⟨255, 255, 255, 1⟩, ⟨0, 0, 0, 1⟩] := by
  rw [show (2 : ℕ) = 1 + 1 from rfl, seedLoop_succ, if_pos (by simp [mkCenter])]
  have hstep : seedStep pts3 [mkCenter ⟨255, 255, 255⟩] (rndB 1) =
      [⟨255, 255, 255, 1⟩, ⟨0, 0, 0, 1⟩] := by
    norm_num [seedStep, pts3, rndB, minD2, dist2, centerRGB, mkCenter, pickIdx]
  rw [hstep, seedLoop_succ, if_neg (by simp)]

theorem lloydB1 : lloydOnce pts3 [⟨255, 255, 255, 1⟩, ⟨0, 0, 0, 1⟩] =
    [⟨255, 255, 255, 1⟩, ⟨50, 50, 50, 2⟩] := by
  norm_num [lloydOnce, assignIdx, pts3, dist2, centerRGB, List.enum, List.enumFrom]

theorem lloydB2 : lloydOnce pts3 [⟨255, 255, 255, 1⟩, ⟨50, 50, 50, 2⟩] =
    [⟨255, 255, 255, 1⟩, ⟨50, 50, 50, 2⟩] := by
  norm_num [lloydOnce, assignIdx, pts3, dist2, centerRGB, List.enum, List.enumFrom]

theorem kmeansB_eval : kmeansPP pts3 2 rndB = [⟨255, 255, 255, 1⟩, ⟨50, 50, 50, 2⟩] := by
  unfold kmeansPP
  rw [if_neg (by simp [pts3])]
  have hidx : (jsTruncQ (rndB 0 * ((pts3.length : ℕ) : ℚ))).toNat = 2 := by
    norm_num [jsTruncQ, rndB, pts3]
    decide
  rw [hidx]
  dsimp only
  have hinit : pts3.getD 2 ⟨0, 0, 0⟩ = ⟨255, 255, 255⟩ := rfl
  rw [hinit, seedB_eval, show (8 : ℕ) = 7 + 1 from rfl, lloyd_succ, lloydB1]
  exact lloyd_fixed pts3 _ lloydB2 7

/-- **C7** (counterexample to "no dependence on randomness"): two runs of
`kmeansPP` on the same samples with the same `k` but different `Math.random`
histories produce different cluster lists (different order *and* different
leading weight). -/
theorem C7_kmeans_depends_on_randomness : kmeansPP pts3 2 rndA ≠ kmeansPP pts3 2 rndB := by
  rw [kmeansA_eval, kmeansB_eval]
  intro hcontra
  rw [List.cons.injEq, Center.mk.injEq] at hcontra
  have h50 : (50 : ℚ) = 255 := hcontra.1.1
  norm_num at h50

/-- **C7** (amended): `toEdgePng` is independent of the ambient `Math.random`
stream (the edge pipeline never calls it), and `kmeansPP` — hence
`getDominantHexes` — is deterministic once the `Math.random` history is
fixed. -/
theorem C7_determinism_given_randomness :
    (∀ (img : List RGBA) (w h : ℕ) (ui : ℝ) (r₁ r₂ : ℕ → ℚ),
        toEdgePng r₁ img w h ui = toEdgePng r₂ img w h ui) ∧
      ∀ (points : List RGB) (k : ℕ) (r₁ r₂ : ℕ → ℚ), (∀ n, r₁ n = r₂ n) →
        kmeansPP points k r₁ = kmeansPP points k r₂ := by
  refine ⟨fun _ _ _ _ _ _ => rfl, ?_⟩
  intro pts k r₁ r₂ hr
  rw [funext hr]

/-- Witness for C7 at concrete inputs. -/
theorem C7_witness :
    toEdgePng (fun _ => 0) [] 0 0 0 = toEdgePng (fun _ => 1) [] 0 0 0 ∧
      kmeansPP [] 0 (fun _ => 0) = kmeansPP [] 0 (fun _ => 0) :=
  ⟨C7_determinism_given_randomness.1 [] 0 0 0 (fun _ => 0) (fun _ => 1),
    C7_determinism_given_randomness.2 [] 0 (fun _ => 0) (fun _ => 0) (fun _ => rfl)⟩

end ColoringBook
